import Mathlib

/-!
Verification development for the jd-fit-evaluator scoring engine.

The definitions below are a shallow embedding of the Python sources:
  * `src/src/scoring/features.py` (feature extractors),
  * `src/src/jd_fit_evaluator/scoring/finalize.py` (`compute_fit`, `score_candidates`),
  * `src/src/models/embeddings.py` (cosine, deterministic fallback embedder, per-embedder cache),
  * `src/src/jd_fit_evaluator/models/embeddings.py` (batch embedding cache),
  * `src/src/mapping/title_industry.py` (title normalization).

Python floats are modelled as exact rationals; `date` objects as year/month/day
triples; `None`-able fields as `Option`; raising code as `Except String`.
Square roots (numpy `linalg.norm`) are not exactly computable on rationals, so
functions that need a norm take an abstract `sqrt : ℚ → ℚ` parameter; theorems
that depend on properties of the square root state them as hypotheses.
-/

instance decEqExcept {ε α : Type} [DecidableEq ε] [DecidableEq α] : DecidableEq (Except ε α) :=
  fun a b =>
  match a, b with
  | Except.error e1, Except.error e2 =>
    match decEq e1 e2 with
    | isTrue h => isTrue (congrArg Except.error h)
    | isFalse h => isFalse (fun hh => h (by injection hh))
  | Except.error _, Except.ok _ => isFalse (fun hh => Except.noConfusion hh)
  | Except.ok _, Except.error _ => isFalse (fun hh => Except.noConfusion hh)
  | Except.ok a1, Except.ok a2 =>
    match decEq a1 a2 with
    | isTrue h => isTrue (congrArg Except.ok h)
    | isFalse h => isFalse (fun hh => h (by injection hh))

/-- Round-half-to-even on rationals, the idealization of Python float rounding. -/
def roundHalfEven (q : ℚ) : ℤ :=
  let f := ⌊q⌋
  let r := q - (f : ℚ)
  if r < 1/2 then f
  else if 1/2 < r then f + 1
  else if f % 2 = 0 then f else f + 1

/-- Python `round(x, 1)`: round to one decimal digit, ties to even. -/
def pyRound1 (q : ℚ) : ℚ := (roundHalfEven (10 * q) : ℚ) / 10

/-- Dot product of two rational vectors (`np.dot` on equal-length 1-D arrays). -/
def dotProd (a b : List ℚ) : ℚ := ((a.zip b).map (fun p => p.1 * p.2)).sum

/-- Sum of squares of a vector; the square of its Euclidean norm. -/
def sumSq (a : List ℚ) : ℚ := dotProd a a

/-- Python `datetime.date`: a year/month/day triple (validity is not needed here). -/
structure PyDate where
  year : ℤ
  month : ℤ
  day : ℤ
deriving DecidableEq

/-- One employment stint as consumed by the feature extractors: `start_date`,
`end_date` (absent or `null` modelled as `none`) and `industry_tags`. -/
structure Stint where
  startDate : Option PyDate
  endDate : Option PyDate
  industryTags : List String
deriving DecidableEq

/-- `_safe_months_between` from `src/src/scoring/features.py`: months between two
dates, with a missing end replaced by today, a day-of-month correction, and a
floor at zero; 0 when the start is not a date. -/
def safeMonthsBetween (today : PyDate) (a : Option PyDate) (b : Option PyDate) : ℤ :=
  match a with
  | none => 0
  | some ad =>
    let e := b.getD today
    let m := (e.year - ad.year) * 12 + (e.month - ad.month)
    let m2 := if e.day < ad.day then m - 1 else m
    max m2 0

/-- `_compute_tenure_months`: month counts of all stints with a usable positive
date span (a valid start date and a strictly positive span). -/
def computeTenureMonths (today : PyDate) (stints : List Stint) : List ℤ :=
  stints.filterMap (fun s =>
    match s.startDate with
    | none => none
    | some _ =>
      let d := safeMonthsBetween today s.startDate s.endDate
      if d ≤ 0 then none else some d)

/-- `tenure_scores`: average and most-recent usable stint length plus the blended
tenure score; `(0, 0, 0)` when no stint has a usable span. A zero threshold is
falsy in Python and yields a component score of 1. -/
def tenureScores (today : PyDate) (stints : List Stint) (minAvg minLast : ℚ) : ℚ × ℚ × ℚ :=
  let months := computeTenureMonths today stints
  match months with
  | [] => (0, 0, 0)
  | m :: ms =>
    let avg : ℚ := (((m :: ms).map (fun (z : ℤ) => (z : ℚ))).sum) / ((m :: ms).length : ℚ)
    let last : ℚ := (m : ℚ)
    let avgScore := if minAvg = 0 then 1 else min 1 (avg / minAvg)
    let lastScore := if minLast = 0 then 1 else min 1 (last / minLast)
    (avg, last, 0.6 * avgScore + 0.4 * lastScore)

/-- `_compute_recency_months`: months since the first stint (scanning most recent
first) with a usable end; 0 for an ongoing stint that has a valid start; `none`
when no stint yields a usable value. -/
def computeRecencyMonths (today : PyDate) : List Stint → Option ℤ
  | [] => none
  | s :: rest =>
    match s.endDate, s.startDate with
    | none, some _ => some 0
    | none, none => computeRecencyMonths today rest
    | some e, _ =>
      let m := (today.year - e.year) * 12 + (today.month - e.month)
      let m2 := if today.day < e.day then m - 1 else m
      some (max m2 0)

/-- `recency_score`: 1 when the months-since value is 0, linear decay inside the
horizon, flat 0.2 beyond it, 0 when no stint gives a months-since value. -/
def recencyScore (today : PyDate) (stints : List Stint) (horizonMonths : ℚ) : ℚ :=
  match computeRecencyMonths today stints with
  | none => 0
  | some monthsSince =>
    if monthsSince ≤ 0 then 1
    else if horizonMonths ≠ 0 ∧ (monthsSince : ℚ) ≤ horizonMonths then
      max 0 (1 - (monthsSince : ℚ) / (horizonMonths * 1.2))
    else 0.2

/-- Accumulates relevant and total months over the stints, mirroring the loop in
`industry_score` (the loop only accumulates two sums, so structural recursion
computes the same totals). -/
def industryAccum (today : PyDate) (targetTags : List String) : List Stint → ℤ × ℤ
  | [] => (0, 0)
  | s :: rest =>
    let m := safeMonthsBetween today s.startDate s.endDate
    let acc := industryAccum today targetTags rest
    let rel := if targetTags.any (fun tag => s.industryTags.contains tag) then m else 0
    (acc.1 + rel, acc.2 + m)

/-- `industry_score`: ratio of months in a target industry to total months; 0
when the total is zero. -/
def industryScore (today : PyDate) (stints : List Stint) (targetTags : List String) : ℚ :=
  let acc := industryAccum today targetTags stints
  if acc.2 = 0 then 0 else (acc.1 : ℚ) / (acc.2 : ℚ)

/-- Python substring test `needle in hay` (the empty needle is always contained). -/
def strContains (hay needle : String) : Bool :=
  if needle = "" then true else (hay.splitOn needle).length ≥ 2

/-- The target-level rank map of `title_match_score` (unknown levels default to 2). -/
def targetLevelRank (targetLevel : Option String) : ℤ :=
  let s := (targetLevel.getD "").toLower
  if s = "ic" then 2
  else if s = "senior" then 2
  else if s = "manager" then 3
  else if s = "lead" then 3
  else if s = "director" then 4
  else if s = "vp" then 5
  else 2

/-- `title_match_score` from `src/src/scoring/features.py` (the scorer called by
`compute_fit`): containment of a target title in one of the three most recent
candidate titles, blended with a level-gap score. -/
def titleMatchScore (titles : List (String × ℤ)) (targetTitles : List String)
    (targetLevel : Option String) : ℚ :=
  match titles with
  | [] => 0
  | t0 :: _ =>
    let roleMatch : ℚ :=
      if (titles.take 3).any (fun p => targetTitles.any (fun t => strContains p.1 t)) then 1 else 0
    let tgtLvl := targetLevelRank targetLevel
    let lvlGap := (t0.2 - tgtLvl).natAbs
    let lvlScore : ℚ := if lvlGap ≤ 1 then 1 else if lvlGap = 2 then 0.6 else 0.3
    0.7 * roleMatch + 0.3 * lvlScore

/-- `_level_alignment_score` from `src/src/scoring/features.py` (used by the
newer `new_title_match_score`, not by the scorer that feeds `compute_fit`). -/
def levelAlignmentScore (roleLevel candLevel : Option ℤ) : ℚ :=
  match roleLevel, candLevel with
  | none, _ => 1
  | some _, none => 1
  | some r, some c =>
    let gap := (r - c).natAbs
    if gap = 0 then 1
    else if gap = 1 then 0.85
    else if gap = 2 then 0.6
    else if gap = 3 then 0.4
    else 0.2

/-- Whitespace-token set of a string, deduplicated. -/
def tokenSet (s : String) : List String :=
  ((s.split (fun c => c.isWhitespace)).filter (fun t => t ≠ "")).dedup

/-- Token-overlap score of two strings: shared tokens over the larger token set
(the overlap base used by `new_title_match_score`). -/
def tokenOverlapScore (a b : String) : ℚ :=
  let ta := tokenSet a
  let tb := tokenSet b
  let overlap := (ta.filter (fun t => tb.contains t)).length
  if overlap = 0 then 0 else (overlap : ℚ) / (max ta.length tb.length : ℚ)

/-- Transcribed from the claim wording of C4 (for refinement comparison with the
code): role-match is 1.0 when a recent title contains or appears in a target
title and otherwise contributes a token-overlap score; the level-score uses the
gap map 1.0 / 0.85 / 0.6 / 0.4-0.2; the blend is 0.7 role + 0.3 level. -/
def titleMatchScoreClaimed (titles : List (String × ℤ)) (targetTitles : List String)
    (targetLevel : Option String) : ℚ :=
  match titles with
  | [] => 0
  | t0 :: _ =>
    let contained :=
      (titles.take 3).any (fun p =>
        targetTitles.any (fun t => strContains p.1 t || strContains t p.1))
    let roleMatch : ℚ :=
      if contained then 1
      else ((titles.take 3).map (fun p =>
              (targetTitles.map (fun t => tokenOverlapScore p.1 t)).foldr max 0)).foldr max 0
    let tgtLvl := targetLevelRank targetLevel
    let lvl := levelAlignmentScore (some tgtLvl) (some t0.2)
    0.7 * roleMatch + 0.3 * lvl

/-- A Python float value: finite (exact rational) or one of the non-finite floats. -/
inductive FVal where
  | fin : ℚ → FVal
  | nan : FVal
  | inf : FVal
  | ninf : FVal
deriving DecidableEq

/-- `np.isfinite` on one value. -/
def FVal.isFinite : FVal → Bool
  | FVal.fin _ => true
  | _ => false

/-- The rational carried by a finite value (0 for non-finite ones; only used
under a finiteness guard). -/
def FVal.toQ : FVal → ℚ
  | FVal.fin q => q
  | _ => 0

/-- A numpy array as `np.asarray` can produce it: 0-D, 1-D or 2-D. -/
inductive PyArr where
  | scalar : FVal → PyArr
  | vec : List FVal → PyArr
  | mat : List (List FVal) → PyArr
deriving DecidableEq

/-- `ndim` of an array. -/
def PyArr.ndim : PyArr → ℕ
  | PyArr.scalar _ => 0
  | PyArr.vec _ => 1
  | PyArr.mat _ => 2

/-- Clamp a value to `[-1, 1]` exactly as the tail of `_cosine` does. -/
def clampUnit (v : ℚ) : ℚ := if v > 1 then 1 else if v < -1 then -1 else v

/-- `_cosine` from `src/src/models/embeddings.py` (the identical copy in
`src/src/scoring/features.py` is imported from there by `skill_sem_sim`):
validates 1-D shapes, equal lengths and finiteness, returns 0 on a zero norm,
otherwise the clamped cosine. `sqrt` abstracts `np.linalg.norm` applied to the
sum of squares. -/
def cosine (sqrt : ℚ → ℚ) (a b : PyArr) : Except String ℚ :=
  match a, b with
  | PyArr.vec av, PyArr.vec bv =>
    if av.length ≠ bv.length then Except.error "cosine requires matching shapes"
    else if ¬ (av.all FVal.isFinite ∧ bv.all FVal.isFinite) then
      Except.error "cosine received non-finite values"
    else
      let aq := av.map FVal.toQ
      let bq := bv.map FVal.toQ
      let normA := sqrt (sumSq aq)
      let normB := sqrt (sumSq bq)
      if normA = 0 ∨ normB = 0 then Except.ok 0
      else Except.ok (clampUnit (dotProd aq bq / (normA * normB)))
  | _, _ => Except.error "expected 1D vector"

/-- `DeterministicFallbackEmbedder` instance state: vector dimension and salt
(default salt "jdfit-v1"). -/
structure DFEmbedder where
  dim : ℕ
  salt : String
deriving DecidableEq

/-- `DeterministicFallbackEmbedder.embed_text`: zero vector for empty normalized
text, otherwise a hash-seeded unit vector (zero vector if its norm degenerates).
The external deterministic primitives are parameters: `normalize` is
`_normalize_text`, `hashSeed` the blake2s seed derivation from salt and text,
`gauss` the seeded standard-normal generator, `sqrt` the norm. -/
def embedText (normalize : String → String) (hashSeed : String → String → ℕ)
    (gauss : ℕ → ℕ → List ℚ) (sqrt : ℚ → ℚ) (e : DFEmbedder) (text : String) : List ℚ :=
  let normalized := normalize text
  if normalized = "" then List.replicate e.dim 0
  else
    let seed := hashSeed e.salt normalized
    let vector := gauss seed e.dim
    let norm := sqrt (sumSq vector)
    if norm = 0 then List.replicate e.dim 0
    else vector.map (fun x => x / norm)

/-- One row of the `embeddings` table of `_EmbeddingCache`: the recorded
dimension column and the decoded float64 vector (`tobytes`/`frombuffer` loses
no value, so the blob is modelled by the vector itself). -/
structure CacheEntry where
  dim : ℕ
  vector : List ℚ
deriving DecidableEq

/-- Primary-key lookup in the `embeddings` table. -/
def lookupEntry (key : String) : List (String × CacheEntry) → Option CacheEntry
  | [] => none
  | (k, e) :: rest => if k = key then some e else lookupEntry key rest

/-- `_EmbeddingCache.get`: a missing row or a mismatched `dim` column is a miss;
a row whose decoded vector disagrees with its own `dim` column raises
`EmbeddingDimError`; otherwise the stored vector is returned unchanged. -/
def cacheGet (db : List (String × CacheEntry)) (key : String) (dim : ℕ) :
    Except String (Option (List ℚ)) :=
  match lookupEntry key db with
  | none => Except.ok none
  | some e =>
    if e.dim ≠ dim then Except.ok none
    else if e.vector.length ≠ dim then Except.error "cache entry has mismatched dimension"
    else Except.ok (some e.vector)

/-- `_EmbeddingCache.set`: `INSERT OR REPLACE` of a row recording the payload
length as the dim column. The replace is modelled by prepending: `lookupEntry`
returns the first match, so the new row shadows any older one. -/
def cacheSet (db : List (String × CacheEntry)) (key : String) (v : List ℚ) :
    List (String × CacheEntry) :=
  (key, ⟨v.length, v⟩) :: db

/-- Lookup in the batch cache table keyed by (provider, model, text). -/
def lookupVec (key : String × String × String) :
    List ((String × String × String) × List ℚ) → Option (List ℚ)
  | [] => none
  | (k, v) :: rest => if k = key then some v else lookupVec key rest

/-- `get_cached` from `src/src/jd_fit_evaluator/models/embeddings.py`: one
answer per requested text, `none` where the table has no row (JSON decoding of
a stored finite float vector is lossless, so rows carry the vector itself). -/
def getCached (db : List ((String × String × String) × List ℚ))
    (provider model : String) (texts : List String) : List (String × Option (List ℚ)) :=
  texts.map (fun t => (t, lookupVec (provider, model, t) db))

/-- `put_cached`: `REPLACE INTO` for each item; later writes shadow earlier rows
(the lookup returns the first, i.e. newest, match). -/
def putCached (db : List ((String × String × String) × List ℚ))
    (provider model : String) (items : List (String × List ℚ)) :
    List ((String × String × String) × List ℚ) :=
  items.foldl (fun d tv => ((provider, model, tv.1), tv.2) :: d) db

/-- The per-signal weight map consumed by `compute_fit`. -/
structure Weights where
  title : ℚ
  industry : ℚ
  skills : ℚ
  context : ℚ
  tenure : ℚ
  recency : ℚ
  bonus : ℚ
deriving DecidableEq

/-- Modelled from the spec: the module `scoring/weights.py` defining
`DEFAULT_WEIGHTS` is not present under `src/`; the spec fixes the default map
as title 0.20, industry 0.15, skills 0.30, context 0.10, tenure 0.10,
recency 0.10, bonus 0.05 (summing to 1.0). -/
def DEFAULT_WEIGHTS : Weights :=
  { title := 0.20, industry := 0.15, skills := 0.30, context := 0.10
  , tenure := 0.10, recency := 0.10, bonus := 0.05 }

/-- The candidate fields `compute_fit` reads. -/
structure Candidate where
  titlesNorm : List (String × ℤ)
  stints : List Stint
  skillsBlob : String
  relevantBulletsBlob : String
  bonusFlags : List ℚ
deriving DecidableEq

/-- The role fields `compute_fit` reads (absent dict keys are `none`). -/
structure Role where
  titles : List String
  level : Option String
  industries : List String
  jdSkillsBlob : String
  minAvgMonths : Option ℚ
  minLastMonths : Option ℚ
  weights : Option Weights
deriving DecidableEq

/-- The per-feature sub-score map returned in `subs`. -/
structure SignalSet where
  title : ℚ
  industry : ℚ
  skills : ℚ
  context : ℚ
  tenure : ℚ
  recency : ℚ
  bonus : ℚ
deriving DecidableEq

/-- The scoring result of one `compute_fit` call (the human-readable `why`
strings are display-only and not modelled). -/
structure FitResult where
  fit : ℚ
  subs : SignalSet
deriving DecidableEq

/-- `skill_sem_sim`: 0 when either blob is empty, otherwise the cosine of the
two embeddings (which can raise). -/
def skillSemSim (sqrt : ℚ → ℚ) (jdBlob candBlob : String) (embedFn : String → List ℚ) :
    Except String ℚ :=
  if jdBlob = "" ∨ candBlob = "" then Except.ok 0
  else cosine sqrt (PyArr.vec ((embedFn jdBlob).map FVal.fin))
    (PyArr.vec ((embedFn candBlob).map FVal.fin))

/-- The fixed reference sentence describing doing the hiring. -/
def hiringSentence : String :=
  "Work that involves hiring candidates, owning requisitions, sourcing, interviewing, offers."

/-- The fixed reference sentence describing being hired. -/
def recruitedSentence : String :=
  "Being a job applicant or being recruited by a company."

/-- `context_penalty`: 0 for empty text, otherwise 0.2 when the text embedding
is closer to the being-recruited sentence than to the hiring sentence. -/
def contextPenalty (sqrt : ℚ → ℚ) (text : String) (embedFn : String → List ℚ) :
    Except String ℚ :=
  if text = "" then Except.ok 0
  else
    let hiring := (embedFn hiringSentence).map FVal.fin
    let recruited := (embedFn recruitedSentence).map FVal.fin
    let e := (embedFn (text.take 2000)).map FVal.fin
    match cosine sqrt (PyArr.vec e) (PyArr.vec hiring) with
    | Except.error msg => Except.error msg
    | Except.ok ch =>
      match cosine sqrt (PyArr.vec e) (PyArr.vec recruited) with
      | Except.error msg => Except.error msg
      | Except.ok cr => Except.ok (max 0 (if cr > ch then 0.2 else 0))

/-- `compute_fit` from `src/src/jd_fit_evaluator/scoring/finalize.py`: computes
all sub-scores, aggregates them with the supplied weight map (default
`DEFAULT_WEIGHTS`), and rounds `100 * total` to one decimal digit. The
embedder is abstracted by `embedFn`; its per-call memoization cache does not
change values and is not modelled. -/
def computeFit (sqrt : ℚ → ℚ) (today : PyDate) (embedFn : String → List ℚ)
    (candidate : Candidate) (role : Role) (weights : Option Weights) :
    Except String FitResult :=
  let W := weights.getD DEFAULT_WEIGHTS
  let tscore := titleMatchScore candidate.titlesNorm role.titles role.level
  let iscore := industryScore today candidate.stints role.industries
  let candBlob := (candidate.skillsBlob ++ "\n" ++ candidate.relevantBulletsBlob).trim
  match skillSemSim sqrt role.jdSkillsBlob candBlob embedFn with
  | Except.error e => Except.error e
  | Except.ok sscore =>
    match contextPenalty sqrt candidate.relevantBulletsBlob embedFn with
    | Except.error e => Except.error e
    | Except.ok cpen =>
      let cscore := max 0 (1 - cpen)
      let t3 := tenureScores today candidate.stints
        (role.minAvgMonths.getD 18) (role.minLastMonths.getD 12)
      let ten := t3.2.2
      let rscore := recencyScore today candidate.stints 36
      let bscore := if candidate.bonusFlags = [] then 0 else min 0.1 candidate.bonusFlags.sum
      let total := W.title * tscore + W.industry * iscore + W.skills * sscore +
        W.context * cscore + W.tenure * ten + W.recency * rscore + W.bonus * bscore
      Except.ok ⟨pyRound1 (100 * total), ⟨tscore, iscore, sscore, cscore, ten, rscore, bscore⟩⟩

/-- The per-candidate loop of `score_candidates` from
`src/src/jd_fit_evaluator/scoring/finalize.py`: the whole fallible per-item body
(id extraction plus `compute_fit`) is abstracted as `fitFn`; a raised exception
is recorded in the error list and the loop continues. Returns the successful
results in order together with the recorded errors (whose lengths are the
reported success and failure counts). -/
def scoreCandidates (fitFn : Candidate → Except String FitResult) :
    List Candidate → List FitResult × List String
  | [] => ([], [])
  | c :: rest =>
    let tail := scoreCandidates fitFn rest
    match fitFn c with
    | Except.ok r => (r :: tail.1, tail.2)
    | Except.error e => (tail.1, e :: tail.2)

/-- A character of Python `string.punctuation` (ASCII 33-47, 58-64, 91-96, 123-126). -/
def isPunctChar (c : Char) : Bool :=
  (33 ≤ c.toNat && c.toNat ≤ 47) || (58 ≤ c.toNat && c.toNat ≤ 64) ||
  (91 ≤ c.toNat && c.toNat ≤ 96) || (123 ≤ c.toNat && c.toNat ≤ 126)

/-- `_title_key` from `src/src/mapping/title_industry.py`: lowercase, map
punctuation to spaces, collapse whitespace. -/
def titleKey (raw : String) : String :=
  let lowered := (raw.toLower).map (fun c => if isPunctChar c then ' ' else c)
  " ".intercalate ((lowered.split (fun c => c.isWhitespace)).filter (fun t => t ≠ ""))

/-- `_TITLE_LOOKUP`: the dictionary fast path of the title normalizer. -/
def TITLE_LOOKUP : List (String × String) :=
  [ ("sr product designer", "Product Designer")
  , ("product designer", "Product Designer")
  , ("senior product designer", "Product Designer")
  , ("lead product designer", "Product Designer")
  , ("principal product designer", "Product Designer")
  , ("staff product designer", "Product Designer")
  , ("design lead", "Product Designer")
  , ("ux designer", "Product Designer")
  , ("ux design lead", "Product Designer")
  , ("ux ui designer", "Product Designer")
  , ("ui ux designer", "Product Designer")
  , ("ui designer", "Product Designer")
  , ("interaction designer", "Product Designer")
  , ("experience designer", "Product Designer")
  , ("visual designer", "Product Designer")
  , ("visual designer product", "Product Designer")
  , ("product design ic5", "Product Designer")
  , ("ux researcher", "UX Researcher")
  , ("product manager", "Product Manager")
  , ("product management", "Product Manager")
  , ("software engineer", "Software Engineer")
  , ("senior software engineer", "Software Engineer")
  , ("full stack engineer", "Software Engineer")
  , ("frontend engineer", "Software Engineer")
  , ("front end engineer", "Software Engineer")
  , ("backend engineer", "Software Engineer")
  , ("back end engineer", "Software Engineer")
  , ("data scientist", "Data Scientist")
  , ("machine learning engineer", "Machine Learning Engineer") ]

/-- Dictionary lookup for a normalized title key. -/
def titleLookup (key : String) : Option String :=
  TITLE_LOOKUP.lookup key

/-- `TITLE_SIM_THRESHOLD = 0.80`. -/
def TITLE_SIM_THRESHOLD : ℚ := 0.80

/-- `_EMBEDDING_TIE_DELTA = 0.01`. -/
def EMBEDDING_TIE_DELTA : ℚ := 0.01

/-- `normalize_title` from `src/src/mapping/title_industry.py`. The
embedding-similarity ranking `_embedding_topk` (which depends on the external
embedder) is the parameter `topk`, and the external adjudicator
`_adjudicate_with_llm` (which returns `none` when unavailable or when the
reply is "unknown") is the parameter `adjudicate`. Python truthiness of the
adjudicated string is an explicit emptiness test. -/
def normalizeTitle (topk : String → List (String × ℚ))
    (adjudicate : String → List String → Option String) (raw : String) : String :=
  let key := titleKey raw
  if key = "" then ""
  else
    match titleLookup key with
    | some mapped => mapped
    | none =>
      match topk key with
      | [] => raw.trim
      | (bestTitle, bestScore) :: rest =>
        if bestScore ≥ TITLE_SIM_THRESHOLD then
          let ambiguous := (((bestTitle, bestScore) :: rest).filter
            (fun p => |p.2 - bestScore| ≤ EMBEDDING_TIE_DELTA)).map Prod.fst
          if 1 < ambiguous.length then
            match adjudicate (if raw ≠ "" then raw else key) ambiguous with
            | some adjudicated => if adjudicated ≠ "" then adjudicated else bestTitle
            | none => bestTitle
          else bestTitle
        else raw.trim

/-! Helper lemmas about the embedded definitions. -/

theorem safeMonthsBetween_nonneg (today : PyDate) (a b : Option PyDate) :
    0 ≤ safeMonthsBetween today a b := by
  unfold safeMonthsBetween
  cases a with
  | none => exact le_refl 0
  | some ad => exact le_max_right _ 0

theorem computeTenureMonths_pos (today : PyDate) (stints : List Stint) :
    ∀ x ∈ computeTenureMonths today stints, 0 < x := by
  intro x hx
  unfold computeTenureMonths at hx
  rw [List.mem_filterMap] at hx
  obtain ⟨s, _, hs⟩ := hx
  cases hst : s.startDate with
  | none => rw [hst] at hs; exact absurd hs (by simp)
  | some d =>
    rw [hst] at hs
    dsimp only at hs
    split at hs
    · exact absurd hs (by simp)
    · rename_i hgt
      rw [Option.some_inj] at hs
      omega

theorem computeTenureMonths_eq_nil (today : PyDate) (stints : List Stint)
    (h : ∀ s ∈ stints, s.startDate = none) : computeTenureMonths today stints = [] := by
  unfold computeTenureMonths
  rw [List.filterMap_eq_nil_iff]
  intro s hs
  rw [h s hs]

/-- C3: `tenure_scores` returns `(0,0,0)` when no stint has a usable dated span
(in particular when no stint has a start date at all), and otherwise returns
the average usable stint length, the most recent usable stint length, and the
blended score 0.6 min(1, avg/minAvg) + 0.4 min(1, last/minLast). -/
theorem tenure_scores_spec (today : PyDate) (stints : List Stint) (minAvg minLast : ℚ)
    (hA : 0 < minAvg) (hL : 0 < minLast) :
    ((∀ s ∈ stints, s.startDate = none) → tenureScores today stints minAvg minLast = (0, 0, 0))
  ∧ (computeTenureMonths today stints = [] → tenureScores today stints minAvg minLast = (0, 0, 0))
  ∧ (∀ m ms, computeTenureMonths today stints = m :: ms →
      tenureScores today stints minAvg minLast =
        (((m :: ms).map (fun (z : ℤ) => (z : ℚ))).sum / ((m :: ms).length : ℚ),
         (m : ℚ),
         0.6 * min 1 ((((m :: ms).map (fun (z : ℤ) => (z : ℚ))).sum / ((m :: ms).length : ℚ)) / minAvg)
           + 0.4 * min 1 ((m : ℚ) / minLast))) := by
  have hnil : computeTenureMonths today stints = [] →
      tenureScores today stints minAvg minLast = (0, 0, 0) := by
    intro h
    unfold tenureScores
    rw [h]
  refine ⟨fun h => hnil (computeTenureMonths_eq_nil today stints h), hnil, ?_⟩
  intro m ms h
  unfold tenureScores
  rw [h]
  dsimp only
  rw [if_neg (ne_of_gt hA), if_neg (ne_of_gt hL)]

/-- Witness for the tenure specification: one 36-month ongoing stint against
thresholds 18 and 12 scores exactly (36, 36, 1). -/
theorem tenure_scores_spec_witness :
    tenureScores ⟨2026, 10, 12⟩ [⟨some ⟨2023, 10, 12⟩, none, []⟩] 18 12 = (36, 36, 1) := by
  have h := (tenure_scores_spec ⟨2026, 10, 12⟩ [⟨some ⟨2023, 10, 12⟩, none, []⟩] 18 12
    (by norm_num) (by norm_num)).2.2 36 [] (by with_unfolding_all decide)
  rw [h]
  with_unfolding_all decide

/-- C2 (amended): recency is 0 with no stints; 1 when the most recent stint is
ongoing (no end date) and has a valid start date; 1 when the months-since value
is 0; linear decay floored at 0 inside the horizon; flat 0.2 beyond it. -/
theorem recency_score_spec (today : PyDate) (stints : List Stint) (h : ℚ) :
    recencyScore today ([] : List Stint) h = 0
  ∧ (∀ d rest tags, stints = (⟨some d, none, tags⟩ : Stint) :: rest →
      recencyScore today stints h = 1)
  ∧ (∀ m, computeRecencyMonths today stints = some m → m ≤ 0 →
      recencyScore today stints h = 1)
  ∧ (∀ m, computeRecencyMonths today stints = some m → 0 < m → (m : ℚ) ≤ h →
      recencyScore today stints h = max 0 (1 - (m : ℚ) / (h * 1.2)))
  ∧ (∀ m, computeRecencyMonths today stints = some m → 0 < m → h < (m : ℚ) →
      recencyScore today stints h = 0.2) := by
  refine ⟨rfl, ?_, ?_, ?_, ?_⟩
  · intro d rest tags hs
    subst hs
    unfold recencyScore
    have : computeRecencyMonths today ((⟨some d, none, tags⟩ : Stint) :: rest) = some 0 := rfl
    rw [this]
    norm_num
  · intro m hm hle
    unfold recencyScore
    rw [hm]
    dsimp only
    rw [if_pos hle]
  · intro m hm hpos hle
    have hone : (1 : ℚ) ≤ (m : ℚ) := by exact_mod_cast hpos
    unfold recencyScore
    rw [hm]
    dsimp only
    rw [if_neg (by omega), if_pos ⟨by linarith, hle⟩]
  · intro m hm hpos hgt
    unfold recencyScore
    rw [hm]
    dsimp only
    rw [if_neg (by omega), if_neg (fun hc => absurd hc.2 (not_le.mpr hgt))]

/-- Witness for the recency specification: an ongoing stint with a valid start
date scores exactly 1. -/
theorem recency_score_spec_witness :
    recencyScore ⟨2026, 10, 12⟩ [⟨some ⟨2024, 1, 1⟩, none, []⟩] 36 = 1 :=
  (recency_score_spec ⟨2026, 10, 12⟩ [⟨some ⟨2024, 1, 1⟩, none, []⟩] 36).2.1
    ⟨2024, 1, 1⟩ [] [] rfl

/-- C2 counterexample: a candidate whose most recent stint has no end date but
also no valid start date scores 0, not 1 as the claim states. -/
theorem recency_score_no_end_cex :
    (⟨none, none, []⟩ : Stint).endDate = none
  ∧ recencyScore ⟨2026, 10, 12⟩ [⟨none, none, []⟩] 36 = 0
  ∧ (0 : ℚ) ≠ 1 := by
  refine ⟨rfl, by with_unfolding_all decide, by norm_num⟩

/-- C4 (amended): the title sub-score used by `compute_fit` is
0.7 role-match + 0.3 level-score, where role-match is 1 exactly when a target
title occurs as a substring of one of the three most recent candidate titles
(0 otherwise, with no token-overlap fallback) and level-score is 1 for a level
gap of at most 1, 0.6 for a gap of 2, and 0.3 for a gap of 3 or more; the
result always lies in [0, 1] and an empty title list scores 0. -/
theorem title_match_score_spec (titles : List (String × ℤ)) (targets : List String)
    (lvl : Option String) :
    (titles = [] → titleMatchScore titles targets lvl = 0)
  ∧ (∀ t0 ts, titles = t0 :: ts →
      titleMatchScore titles targets lvl =
        0.7 * (if ((t0 :: ts).take 3).any
                  (fun p => targets.any (fun t => strContains p.1 t)) then 1 else 0)
      + 0.3 * (if (t0.2 - targetLevelRank lvl).natAbs ≤ 1 then 1
               else if (t0.2 - targetLevelRank lvl).natAbs = 2 then 0.6 else 0.3))
  ∧ 0 ≤ titleMatchScore titles targets lvl ∧ titleMatchScore titles targets lvl ≤ 1 := by
  refine ⟨?_, ?_, ?_⟩
  · intro h; subst h; rfl
  · intro t0 ts h; subst h; rfl
  · cases titles with
    | nil => constructor <;> norm_num [titleMatchScore]
    | cons t0 ts =>
      unfold titleMatchScore
      dsimp only
      constructor <;> split_ifs <;> norm_num

/-- Witness for the title sub-score specification: containment with a level gap
of 3 scores 0.7 + 0.3 times 0.3. -/
theorem title_match_score_spec_witness :
    titleMatchScore [("product designer", 2)] ["designer"] (some "vp") = 79/100 := by
  have h := (title_match_score_spec [("product designer", 2)] ["designer"]
    (some "vp")).2.1 ("product designer", 2) [] rfl
  rw [h]
  with_unfolding_all decide

/-- C4 counterexample: for a candidate title equal to the target title and a
level gap of 1, the code scores 1.0 (gap of at most 1 is not penalized) while
the claimed formula with a 0.85 level factor for a gap of 1 gives 0.955. -/
theorem title_match_score_claim_cex :
    titleMatchScore [("product designer", 2)] ["product designer"] (some "manager") = 1
  ∧ titleMatchScoreClaimed [("product designer", 2)] ["product designer"] (some "manager")
      = 191/200
  ∧ (1 : ℚ) ≠ 191/200 := by
  refine ⟨by with_unfolding_all decide, by with_unfolding_all decide, by norm_num⟩

/-- C7: the deterministic fallback embedder is a pure function of its input
text, dimension and salt: with the same deterministic primitives (text
normalizer, blake2s seed derivation, seeded gaussian generator and norm), two
instances with equal dimension and salt produce identical vectors for every
text, in particular across separate runs. -/
theorem embed_text_deterministic (normalize : String → String)
    (hashSeed : String → String → ℕ) (gauss : ℕ → ℕ → List ℚ) (sqrt : ℚ → ℚ)
    (e1 e2 : DFEmbedder) (text : String)
    (hdim : e1.dim = e2.dim) (hsalt : e1.salt = e2.salt) :
    embedText normalize hashSeed gauss sqrt e1 text
      = embedText normalize hashSeed gauss sqrt e2 text := by
  obtain ⟨d1, s1⟩ := e1
  obtain ⟨d2, s2⟩ := e2
  dsimp only at hdim hsalt
  subst hdim
  subst hsalt
  rfl

/-- Witness for determinism of the fallback embedder at a concrete input. -/
theorem embed_text_deterministic_witness :
    embedText (fun s => s) (fun _ _ => 7) (fun _ n => List.replicate n 1) (fun q => q)
      ⟨2, "jdfit-v1"⟩ "director of design"
    = embedText (fun s => s) (fun _ _ => 7) (fun _ n => List.replicate n 1) (fun q => q)
      ⟨2, "jdfit-v1"⟩ "director of design" :=
  embed_text_deterministic (fun s => s) (fun _ _ => 7) (fun _ n => List.replicate n 1)
    (fun q => q) ⟨2, "jdfit-v1"⟩ ⟨2, "jdfit-v1"⟩ "director of design" rfl rfl

/-- C8: a stored cache row whose recorded dimension differs from the expected
dimension is a miss, exactly as an absent key is; whenever the lookup does
return a vector, it is the stored vector itself with exactly the expected
length, never truncated or padded. -/
theorem cache_dim_mismatch_is_miss (db : List (String × CacheEntry)) (key : String) (dim : ℕ) :
    (∀ e, lookupEntry key db = some e → e.dim ≠ dim → cacheGet db key dim = Except.ok none)
  ∧ (lookupEntry key db = none → cacheGet db key dim = Except.ok none)
  ∧ (∀ v, cacheGet db key dim = Except.ok (some v) →
      v.length = dim ∧ ∃ e, lookupEntry key db = some e ∧ v = e.vector) := by
  refine ⟨?_, ?_, ?_⟩
  · intro e he hne
    unfold cacheGet
    rw [he]
    dsimp only
    rw [if_pos hne]
  · intro h
    unfold cacheGet
    rw [h]
  · intro v hv
    unfold cacheGet at hv
    cases hl : lookupEntry key db with
    | none => rw [hl] at hv; exact absurd hv (by simp)
    | some e =>
      rw [hl] at hv
      dsimp only at hv
      by_cases h1 : e.dim ≠ dim
      · rw [if_pos h1] at hv; exact absurd hv (by simp)
      · rw [if_neg h1] at hv
        by_cases h2 : e.vector.length ≠ dim
        · rw [if_pos h2] at hv; exact absurd hv (by simp)
        · rw [if_neg h2] at hv
          rw [Except.ok.injEq, Option.some_inj] at hv
          subst hv
          exact ⟨not_ne_iff.mp h2, e, rfl, rfl⟩

/-- Witness for the dimension-mismatch rule: a stored 3-dimensional vector is a
miss for an expected dimension of 2. -/
theorem cache_dim_mismatch_is_miss_witness :
    cacheGet [("k", (⟨3, [1, 2, 3]⟩ : CacheEntry))] "k" 2 = Except.ok none :=
  (cache_dim_mismatch_is_miss [("k", ⟨3, [1, 2, 3]⟩)] "k" 2).1 ⟨3, [1, 2, 3]⟩
    (by with_unfolding_all decide) (by decide)

/-- C9: the batch loop isolates per-candidate failures: the result list is
exactly the successful scores in order (so every candidate whose scoring
succeeds gets a result and no failure aborts the batch), and the success and
failure counts it reports add up to the number of candidates. -/
theorem score_candidates_isolates_failures (fitFn : Candidate → Except String FitResult)
    (cands : List Candidate) :
    (scoreCandidates fitFn cands).1 = cands.filterMap (fun c => (fitFn c).toOption)
  ∧ (scoreCandidates fitFn cands).1.length + (scoreCandidates fitFn cands).2.length
      = cands.length
  ∧ (∀ c ∈ cands, ∀ r, fitFn c = Except.ok r → r ∈ (scoreCandidates fitFn cands).1) := by
  induction cands with
  | nil => exact ⟨rfl, rfl, by intro c hc; exact absurd hc (List.not_mem_nil c)⟩
  | cons c0 rest ih =>
    obtain ⟨ih1, ih2, ih3⟩ := ih
    refine ⟨?_, ?_, ?_⟩
    · unfold scoreCandidates
      cases h : fitFn c0 with
      | ok r => simp [h, Except.toOption, ih1]
      | error e => simp [h, Except.toOption, ih1]
    · unfold scoreCandidates
      cases h : fitFn c0 with
      | ok r => simpa using by omega
      | error e => simpa using by omega
    · intro c hc r hr
      rcases List.mem_cons.mp hc with hceq | hcmem
      · subst hceq
        unfold scoreCandidates
        rw [hr]
        exact List.mem_cons_self r _
      · have hmem := ih3 c hcmem r hr
        unfold scoreCandidates
        cases h : fitFn c0 with
        | ok r0 => exact List.mem_cons_of_mem r0 hmem
        | error e => exact hmem

/-- Witness for failure isolation: with one failing and one succeeding
candidate, the succeeding candidate's result is still produced. -/
theorem score_candidates_isolates_failures_witness :
    (⟨1, ⟨0, 0, 0, 1, 0, 0, 0⟩⟩ : FitResult) ∈
      (scoreCandidates
        (fun c => if c.skillsBlob = "" then Except.error "boom"
                  else Except.ok ⟨1, ⟨0, 0, 0, 1, 0, 0, 0⟩⟩)
        [⟨[], [], "", "", []⟩, ⟨[], [], "python", "", []⟩]).1 :=
  (score_candidates_isolates_failures
    (fun c => if c.skillsBlob = "" then Except.error "boom"
              else Except.ok ⟨1, ⟨0, 0, 0, 1, 0, 0, 0⟩⟩)
    [⟨[], [], "", "", []⟩, ⟨[], [], "python", "", []⟩]).2.2
    ⟨[], [], "python", "", []⟩ (by simp) ⟨1, ⟨0, 0, 0, 1, 0, 0, 0⟩⟩
    (by with_unfolding_all decide)

/-- C10: cache round trips. Writing a vector under a (provider, model, text)
key in the batch cache and reading the same key back returns exactly that
vector; a text with no stored row reads back as `none`; and the per-embedder
cache returns a freshly written vector unchanged when read at its own
dimension. Serialization (JSON in the batch cache, raw float64 bytes in the
per-embedder cache) is lossless for finite floats and is modelled by storing
the vector itself. -/
theorem cache_roundtrip (db : List ((String × String × String) × List ℚ))
    (db2 : List (String × CacheEntry)) (provider model t k : String) (v v2 : List ℚ) :
    getCached (putCached db provider model [(t, v)]) provider model [t] = [(t, some v)]
  ∧ (lookupVec (provider, model, t) db = none →
      getCached db provider model [t] = [(t, none)])
  ∧ cacheGet (cacheSet db2 k v2) k v2.length = Except.ok (some v2) := by
  refine ⟨?_, ?_, ?_⟩
  · show [(t, lookupVec (provider, model, t) (((provider, model, t), v) :: db))] = [(t, some v)]
    rw [show lookupVec (provider, model, t) (((provider, model, t), v) :: db) = some v from
      if_pos rfl]
  · intro h
    show [(t, lookupVec (provider, model, t) db)] = [(t, none)]
    rw [h]
  · show cacheGet ((k, ⟨v2.length, v2⟩) :: db2) k v2.length = Except.ok (some v2)
    unfold cacheGet
    rw [show lookupEntry k ((k, (⟨v2.length, v2⟩ : CacheEntry)) :: db2)
        = some ⟨v2.length, v2⟩ from if_pos rfl]
    dsimp only
    rw [if_neg (by exact fun hc => hc rfl), if_neg (by exact fun hc => hc rfl)]

/-- Witness for the cache round trip: read-after-write on an empty batch cache
returns the written vector, and an absent text reads back as `none`. -/
theorem cache_roundtrip_witness :
    getCached (putCached [] "ollama" "m" [("skills", [1, 2])]) "ollama" "m" ["skills"]
      = [("skills", some [1, 2])]
  ∧ getCached [] "ollama" "m" ["skills"] = [("skills", none)] :=
  ⟨(cache_roundtrip [] [] "ollama" "m" "skills" "k" [1, 2] []).1,
   (cache_roundtrip [] [] "ollama" "m" "skills" "k" [1, 2] []).2.1 rfl⟩

/-- C6: on a dictionary miss whose top embedding match meets the similarity
threshold with at least two candidates tied within the delta, the adjudicator
is invoked on exactly the tied candidate list and any non-empty answer it
gives (in particular one naming a tied candidate, such as the second tied
option) is returned verbatim; when adjudication is unavailable or answers
"unknown" (modelled as `none`), the top-ranked candidate is returned. -/
theorem normalize_title_tie_break (topk : String → List (String × ℚ))
    (adjudicate : String → List String → Option String) (raw : String)
    (bt : String) (bs : ℚ) (rest : List (String × ℚ))
    (hkey : titleKey raw ≠ "")
    (hdict : titleLookup (titleKey raw) = none)
    (htopk : topk (titleKey raw) = (bt, bs) :: rest)
    (hthr : bs ≥ TITLE_SIM_THRESHOLD)
    (htie : 1 < ((((bt, bs) :: rest).filter
        (fun p => |p.2 - bs| ≤ EMBEDDING_TIE_DELTA)).map Prod.fst).length) :
    (∀ x, adjudicate (if raw ≠ "" then raw else titleKey raw)
        ((((bt, bs) :: rest).filter
          (fun p => |p.2 - bs| ≤ EMBEDDING_TIE_DELTA)).map Prod.fst) = some x →
      x ∈ (((bt, bs) :: rest).filter
          (fun p => |p.2 - bs| ≤ EMBEDDING_TIE_DELTA)).map Prod.fst →
      x ≠ "" → normalizeTitle topk adjudicate raw = x)
  ∧ (adjudicate (if raw ≠ "" then raw else titleKey raw)
        ((((bt, bs) :: rest).filter
          (fun p => |p.2 - bs| ≤ EMBEDDING_TIE_DELTA)).map Prod.fst) = none →
      normalizeTitle topk adjudicate raw = bt) := by
  have hbody : ∀ conclusionVal,
      (match adjudicate (if raw ≠ "" then raw else titleKey raw)
        ((((bt, bs) :: rest).filter
          (fun p => |p.2 - bs| ≤ EMBEDDING_TIE_DELTA)).map Prod.fst) with
       | some adjudicated => if adjudicated ≠ "" then adjudicated else bt
       | none => bt) = conclusionVal →
      normalizeTitle topk adjudicate raw = conclusionVal := by
    intro cv hcv
    unfold normalizeTitle
    rw [if_neg hkey, hdict, htopk]
    dsimp only
    rw [if_pos hthr, if_pos htie]
    exact hcv
  constructor
  · intro x hx hmem hne
    exact hbody x (by rw [hx]; exact if_pos hne)
  · intro hn
    exact hbody bt (by rw [hn])

/-- Witness for tie-break adjudication: two canonical titles tie at 0.9 and the
adjudicator picks the second tied option, which the normalizer returns. -/
theorem normalize_title_tie_break_witness :
    normalizeTitle (fun _ => [("Product Designer", 9/10), ("Software Engineer", 9/10)])
      (fun _ opts => opts.get? 1) "zzzz" = "Software Engineer" :=
  (normalize_title_tie_break
    (fun _ => [("Product Designer", 9/10), ("Software Engineer", 9/10)])
    (fun _ opts => opts.get? 1) "zzzz" "Product Designer" (9/10)
    [("Software Engineer", 9/10)]
    (by with_unfolding_all decide) (by with_unfolding_all decide) rfl
    (by norm_num [TITLE_SIM_THRESHOLD]) (by with_unfolding_all decide)).1
    "Software Engineer" (by with_unfolding_all decide)
    (by with_unfolding_all decide) (by decide)

theorem sumSq_nonneg (a : List ℚ) : 0 ≤ sumSq a := by
  induction a with
  | nil => exact le_refl 0
  | cons x xs ih =>
    have hx : sumSq (x :: xs) = x * x + sumSq xs := rfl
    rw [hx]
    exact add_nonneg (mul_self_nonneg x) ih

theorem clampUnit_mem (v : ℚ) : -1 ≤ clampUnit v ∧ clampUnit v ≤ 1 := by
  unfold clampUnit
  split_ifs <;> constructor <;> linarith

theorem cosine_ok_mem (sqrt : ℚ → ℚ) (a b : PyArr) (v : ℚ)
    (h : cosine sqrt a b = Except.ok v) : -1 ≤ v ∧ v ≤ 1 := by
  cases a with
  | scalar x => exact absurd h (by simp [cosine])
  | mat xs => exact absurd h (by simp [cosine])
  | vec av =>
    cases b with
    | scalar x => exact absurd h (by simp [cosine])
    | mat xs => exact absurd h (by simp [cosine])
    | vec bv =>
      unfold cosine at h
      dsimp only at h
      split_ifs at h with h1 h2 h3 <;>
        first
          | (rw [Except.ok.injEq] at h; subst h; exact clampUnit_mem _)
          | (rw [Except.ok.injEq] at h; subst h; constructor <;> norm_num)
          | simp at h

/-- C5: cosine raises exactly when an input is not a 1-D vector, the lengths
differ, or a component is non-finite; under the precondition it never raises,
returns exactly 0 when either vector has zero magnitude (zero sum of squares,
equivalently zero norm), and otherwise returns the cosine of the two vectors
clamped to [-1, 1] (so the result always lies in [-1, 1]). The abstract norm
satisfies the stated square-root facts. -/
theorem cosine_spec (sqrt : ℚ → ℚ) (a b : PyArr)
    (hsqrt : ∀ q : ℚ, 0 ≤ q → (sqrt q = 0 ↔ q = 0)) :
    ((∃ v, cosine sqrt a b = Except.ok v) ↔
      ∃ av bv, a = PyArr.vec av ∧ b = PyArr.vec bv ∧ av.length = bv.length ∧
        av.all FVal.isFinite = true ∧ bv.all FVal.isFinite = true)
  ∧ (∀ v, cosine sqrt a b = Except.ok v → -1 ≤ v ∧ v ≤ 1)
  ∧ (∀ av bv, a = PyArr.vec av → b = PyArr.vec bv → av.length = bv.length →
      av.all FVal.isFinite = true → bv.all FVal.isFinite = true →
      ((sumSq (av.map FVal.toQ) = 0 ∨ sumSq (bv.map FVal.toQ) = 0 →
          cosine sqrt a b = Except.ok 0)
       ∧ (¬(sumSq (av.map FVal.toQ) = 0 ∨ sumSq (bv.map FVal.toQ) = 0) →
          cosine sqrt a b = Except.ok (clampUnit
            (dotProd (av.map FVal.toQ) (bv.map FVal.toQ) /
              (sqrt (sumSq (av.map FVal.toQ)) * sqrt (sumSq (bv.map FVal.toQ)))))))) := by
  have hnormiff : ∀ xs : List FVal,
      (sqrt (sumSq (xs.map FVal.toQ)) = 0 ↔ sumSq (xs.map FVal.toQ) = 0) :=
    fun xs => hsqrt _ (sumSq_nonneg _)
  refine ⟨⟨?_, ?_⟩, cosine_ok_mem sqrt a b, ?_⟩
  · rintro ⟨v, hv⟩
    cases a with
    | scalar x => exact absurd hv (by simp [cosine])
    | mat xs => exact absurd hv (by simp [cosine])
    | vec av =>
      cases b with
      | scalar x => exact absurd hv (by simp [cosine])
      | mat xs => exact absurd hv (by simp [cosine])
      | vec bv =>
        refine ⟨av, bv, rfl, rfl, ?_⟩
        unfold cosine at hv
        dsimp only at hv
        by_cases h1 : av.length ≠ bv.length
        · rw [if_pos h1] at hv; exact absurd hv (by simp)
        · rw [if_neg h1] at hv
          by_cases h2 : ¬(av.all FVal.isFinite = true ∧ bv.all FVal.isFinite = true)
          · rw [if_pos h2] at hv; exact absurd hv (by simp)
          · rw [not_not] at h2
            exact ⟨not_ne_iff.mp h1, h2.1, h2.2⟩
  · rintro ⟨av, bv, rfl, rfl, hlen, hfa, hfb⟩
    unfold cosine
    dsimp only
    rw [if_neg (not_ne_iff.mpr hlen), if_neg (by rw [not_not]; exact ⟨hfa, hfb⟩)]
    by_cases hz : sqrt (sumSq (av.map FVal.toQ)) = 0 ∨ sqrt (sumSq (bv.map FVal.toQ)) = 0
    · rw [if_pos hz]; exact ⟨0, rfl⟩
    · rw [if_neg hz]; exact ⟨_, rfl⟩
  · rintro av bv rfl rfl hlen hfa hfb
    have hguard : (sqrt (sumSq (av.map FVal.toQ)) = 0 ∨ sqrt (sumSq (bv.map FVal.toQ)) = 0)
        ↔ (sumSq (av.map FVal.toQ) = 0 ∨ sumSq (bv.map FVal.toQ) = 0) :=
      or_congr (hnormiff av) (hnormiff bv)
    constructor
    · intro hz
      unfold cosine
      dsimp only
      rw [if_neg (not_ne_iff.mpr hlen), if_neg (by rw [not_not]; exact ⟨hfa, hfb⟩),
        if_pos (hguard.mpr hz)]
    · intro hz
      unfold cosine
      dsimp only
      rw [if_neg (not_ne_iff.mpr hlen), if_neg (by rw [not_not]; exact ⟨hfa, hfb⟩),
        if_neg (fun hc => hz (hguard.mp hc))]

/-- Witness for the cosine specification: orthogonal finite unit vectors give
exactly 0 with the identity square root on their unit sums of squares. -/
theorem cosine_spec_witness :
    cosine (fun q => q) (PyArr.vec [FVal.fin 1, FVal.fin 0])
      (PyArr.vec [FVal.fin 0, FVal.fin 1]) = Except.ok 0 := by
  have h := (cosine_spec (fun q => q) (PyArr.vec [FVal.fin 1, FVal.fin 0])
    (PyArr.vec [FVal.fin 0, FVal.fin 1]) (fun q _ => Iff.rfl)).2.2
    [FVal.fin 1, FVal.fin 0] [FVal.fin 0, FVal.fin 1] rfl rfl rfl rfl rfl
  rw [h.2 (by with_unfolding_all decide)]
  with_unfolding_all decide

theorem titleMatchScore_mem (titles : List (String × ℤ)) (targets : List String)
    (lvl : Option String) :
    0 ≤ titleMatchScore titles targets lvl ∧ titleMatchScore titles targets lvl ≤ 1 := by
  cases titles with
  | nil => constructor <;> norm_num [titleMatchScore]
  | cons t0 ts =>
    unfold titleMatchScore
    dsimp only
    constructor <;> split_ifs <;> norm_num

theorem industryAccum_mem (today : PyDate) (tags : List String) (ss : List Stint) :
    0 ≤ (industryAccum today tags ss).1 ∧
      (industryAccum today tags ss).1 ≤ (industryAccum today tags ss).2 := by
  induction ss with
  | nil => exact ⟨le_refl 0, le_refl 0⟩
  | cons s rest ih =>
    obtain ⟨ih1, ih2⟩ := ih
    have hm := safeMonthsBetween_nonneg today s.startDate s.endDate
    unfold industryAccum
    dsimp only
    split_ifs <;> constructor <;> omega

theorem industryScore_mem (today : PyDate) (ss : List Stint) (tags : List String) :
    0 ≤ industryScore today ss tags ∧ industryScore today ss tags ≤ 1 := by
  obtain ⟨h1, h2⟩ := industryAccum_mem today tags ss
  unfold industryScore
  dsimp only
  split_ifs with hz
  · norm_num
  · have htot : (0 : ℤ) < (industryAccum today tags ss).2 :=
      lt_of_le_of_ne (le_trans h1 h2) (Ne.symm hz)
    constructor
    · exact div_nonneg (by exact_mod_cast h1) (by exact_mod_cast le_of_lt htot)
    · rw [div_le_one (by exact_mod_cast htot)]
      exact_mod_cast h2

theorem tenureScores_third_mem (today : PyDate) (ss : List Stint) (minAvg minLast : ℚ)
    (hA : 0 ≤ minAvg) (hL : 0 ≤ minLast) :
    0 ≤ (tenureScores today ss minAvg minLast).2.2 ∧
      (tenureScores today ss minAvg minLast).2.2 ≤ 1 := by
  unfold tenureScores
  cases hm : computeTenureMonths today ss with
  | nil => norm_num
  | cons m ms =>
    dsimp only
    have hpos := computeTenureMonths_pos today ss
    rw [hm] at hpos
    have hmpos : 0 < m := hpos m (List.mem_cons_self m ms)
    have hsumgen : ∀ l : List ℤ, (∀ x ∈ l, 0 < x) → 0 ≤ (l.map (fun (z : ℤ) => (z : ℚ))).sum := by
      intro l
      induction l with
      | nil => intro _; simp
      | cons a as ih =>
        intro hl
        rw [List.map_cons, List.sum_cons]
        have h1 : (0 : ℚ) ≤ (a : ℚ) := by
          exact_mod_cast le_of_lt (hl a (List.mem_cons_self a as))
        have h2 := ih (fun x hx => hl x (List.mem_cons_of_mem a hx))
        linarith
    have hsum : 0 ≤ ((m :: ms).map (fun (z : ℤ) => (z : ℚ))).sum := hsumgen (m :: ms) hpos
    have hlen : (0 : ℚ) < ((m :: ms).length : ℚ) := by
      exact_mod_cast Nat.succ_pos ms.length
    have havg : 0 ≤ (((m :: ms).map (fun (z : ℤ) => (z : ℚ))).sum) / ((m :: ms).length : ℚ) :=
      div_nonneg hsum (le_of_lt hlen)
    have hlast : (0 : ℚ) ≤ (m : ℚ) := by exact_mod_cast le_of_lt hmpos
    have havgsc : 0 ≤ (if minAvg = 0 then (1 : ℚ)
        else min 1 ((((m :: ms).map (fun (z : ℤ) => (z : ℚ))).sum) / ((m :: ms).length : ℚ) / minAvg))
      ∧ (if minAvg = 0 then (1 : ℚ)
        else min 1 ((((m :: ms).map (fun (z : ℤ) => (z : ℚ))).sum) / ((m :: ms).length : ℚ) / minAvg))
          ≤ 1 := by
      split_ifs with h0
      · norm_num
      · have hA2 : 0 < minAvg := lt_of_le_of_ne hA (Ne.symm h0)
        exact ⟨le_min (by norm_num) (div_nonneg havg (le_of_lt hA2)), min_le_left _ _⟩
    have hlastsc : 0 ≤ (if minLast = 0 then (1 : ℚ) else min 1 ((m : ℚ) / minLast))
      ∧ (if minLast = 0 then (1 : ℚ) else min 1 ((m : ℚ) / minLast)) ≤ 1 := by
      split_ifs with h0
      · norm_num
      · have hL2 : 0 < minLast := lt_of_le_of_ne hL (Ne.symm h0)
        exact ⟨le_min (by norm_num) (div_nonneg hlast (le_of_lt hL2)), min_le_left _ _⟩
    obtain ⟨ha0, ha1⟩ := havgsc
    obtain ⟨hl0, hl1⟩ := hlastsc
    constructor <;> [linarith; linarith]

theorem recencyScore_mem (today : PyDate) (ss : List Stint) (h : ℚ) :
    0 ≤ recencyScore today ss h ∧ recencyScore today ss h ≤ 1 := by
  unfold recencyScore
  cases hm : computeRecencyMonths today ss with
  | none => norm_num
  | some m =>
    dsimp only
    split_ifs with h1 h2
    · norm_num
    · have hm1 : (1 : ℚ) ≤ (m : ℚ) := by exact_mod_cast (by omega : (1 : ℤ) ≤ m)
      have hh : (0 : ℚ) < h := lt_of_lt_of_le (by linarith) h2.2
      constructor
      · exact le_max_left 0 _
      · apply max_le (by norm_num)
        have hd : 0 ≤ (m : ℚ) / (h * 1.2) := div_nonneg (by linarith) (by nlinarith)
        linarith
    · norm_num

theorem skillSemSim_ok_mem (sqrt : ℚ → ℚ) (jd cb : String) (embedFn : String → List ℚ)
    (s : ℚ) (h : skillSemSim sqrt jd cb embedFn = Except.ok s) : -1 ≤ s ∧ s ≤ 1 := by
  unfold skillSemSim at h
  split_ifs at h with h1
  · rw [Except.ok.injEq] at h
    subst h
    constructor <;> norm_num
  · exact cosine_ok_mem _ _ _ _ h

theorem contextPenalty_ok_mem (sqrt : ℚ → ℚ) (text : String) (embedFn : String → List ℚ)
    (c : ℚ) (h : contextPenalty sqrt text embedFn = Except.ok c) : 0 ≤ c ∧ c ≤ 0.2 := by
  unfold contextPenalty at h
  split_ifs at h with h1
  · rw [Except.ok.injEq] at h
    subst h
    constructor <;> norm_num
  · dsimp only at h
    cases hch : cosine sqrt (PyArr.vec ((embedFn (text.take 2000)).map FVal.fin))
        (PyArr.vec ((embedFn hiringSentence).map FVal.fin)) with
    | error e => rw [hch] at h; exact absurd h (by simp)
    | ok ch =>
      rw [hch] at h
      dsimp only at h
      cases hcr : cosine sqrt (PyArr.vec ((embedFn (text.take 2000)).map FVal.fin))
          (PyArr.vec ((embedFn recruitedSentence).map FVal.fin)) with
      | error e => rw [hcr] at h; exact absurd h (by simp)
      | ok cr =>
        rw [hcr] at h
        dsimp only at h
        rw [Except.ok.injEq] at h
        subst h
        constructor
        · exact le_max_left 0 _
        · apply max_le (by norm_num)
          split_ifs <;> norm_num

theorem roundHalfEven_nonneg (q : ℚ) (h : 0 ≤ q) : 0 ≤ roundHalfEven q := by
  unfold roundHalfEven
  dsimp only
  have hf : (0 : ℤ) ≤ ⌊q⌋ := Int.floor_nonneg.mpr h
  split_ifs <;> omega

theorem roundHalfEven_le (q : ℚ) (n : ℤ) (h : q ≤ (n : ℚ)) : roundHalfEven q ≤ n := by
  unfold roundHalfEven
  dsimp only
  have hf : ⌊q⌋ ≤ n := (Int.floor_le_floor h).trans_eq (Int.floor_intCast n)
  split_ifs with h1 h2 h3
  · exact hf
  · by_contra hc
    push_neg at hc
    have hfn : ⌊q⌋ = n := le_antisymm hf (by omega)
    rw [hfn] at h2
    have hq : (n : ℚ) < q := by linarith
    linarith
  · exact hf
  · by_contra hc
    push_neg at hc
    have hfn : ⌊q⌋ = n := le_antisymm hf (by omega)
    rw [hfn] at h1
    push_neg at h1
    linarith

theorem pyRound1_mem (x : ℚ) (h0 : 0 ≤ x) (h1 : x ≤ 100) :
    0 ≤ pyRound1 x ∧ pyRound1 x ≤ 100 := by
  have ha : 0 ≤ 10 * x := by linarith
  have hb : 10 * x ≤ ((1000 : ℤ) : ℚ) := by push_cast; linarith
  have r1 := roundHalfEven_nonneg (10 * x) ha
  have r2 := roundHalfEven_le (10 * x) 1000 hb
  unfold pyRound1
  constructor
  · exact div_nonneg (by exact_mod_cast r1) (by norm_num)
  · have : ((roundHalfEven (10 * x) : ℤ) : ℚ) ≤ 1000 := by exact_mod_cast r2
    linarith

/-- C1 (amended): `compute_fit` defaults to the spec-modelled fixed weight map
(summing to 1) when no map is supplied, and whenever it returns it returns
`fit = round(100 * Σ weight_i * subscore_i, 1)` for the supplied map. The fit
lies within [0, 100] provided the weights are nonnegative and sum to 1, the
skills subscore (a cosine, which can otherwise be negative) is nonnegative,
the role tenure thresholds are nonnegative and the bonus flags are
nonnegative; without the extra nonnegativity conditions the bound can fail. -/
theorem compute_fit_spec (sqrt : ℚ → ℚ) (today : PyDate) (embedFn : String → List ℚ)
    (candidate : Candidate) (role : Role) :
    computeFit sqrt today embedFn candidate role none
      = computeFit sqrt today embedFn candidate role (some DEFAULT_WEIGHTS)
  ∧ DEFAULT_WEIGHTS.title + DEFAULT_WEIGHTS.industry + DEFAULT_WEIGHTS.skills +
      DEFAULT_WEIGHTS.context + DEFAULT_WEIGHTS.tenure + DEFAULT_WEIGHTS.recency +
      DEFAULT_WEIGHTS.bonus = 1
  ∧ (∀ W r, computeFit sqrt today embedFn candidate role (some W) = Except.ok r →
      (r.fit = pyRound1 (100 * (W.title * r.subs.title + W.industry * r.subs.industry +
          W.skills * r.subs.skills + W.context * r.subs.context + W.tenure * r.subs.tenure +
          W.recency * r.subs.recency + W.bonus * r.subs.bonus))
       ∧ (0 ≤ W.title → 0 ≤ W.industry → 0 ≤ W.skills → 0 ≤ W.context → 0 ≤ W.tenure →
          0 ≤ W.recency → 0 ≤ W.bonus →
          W.title + W.industry + W.skills + W.context + W.tenure + W.recency + W.bonus = 1 →
          0 ≤ r.subs.skills → 0 ≤ role.minAvgMonths.getD 18 → 0 ≤ role.minLastMonths.getD 12 →
          (∀ x ∈ candidate.bonusFlags, 0 ≤ x) →
          0 ≤ r.fit ∧ r.fit ≤ 100))) := by
  refine ⟨rfl, by norm_num [DEFAULT_WEIGHTS], ?_⟩
  intro W r h
  unfold computeFit at h
  dsimp only at h
  cases hss : skillSemSim sqrt role.jdSkillsBlob
      ((candidate.skillsBlob ++ "\n" ++ candidate.relevantBulletsBlob).trim) embedFn with
  | error e => rw [hss] at h; exact absurd h (by simp)
  | ok sscore =>
    rw [hss] at h
    dsimp only at h
    cases hcp : contextPenalty sqrt candidate.relevantBulletsBlob embedFn with
    | error e => rw [hcp] at h; exact absurd h (by simp)
    | ok cpen =>
      rw [hcp] at h
      dsimp only at h
      rw [Except.ok.injEq] at h
      subst h
      refine ⟨rfl, ?_⟩
      intro hWt hWi hWs hWc hWte hWr hWb hsumW hsk hmA hmL hbf
      dsimp only
      obtain ⟨ht0, ht1⟩ := titleMatchScore_mem candidate.titlesNorm role.titles role.level
      obtain ⟨hi0, hi1⟩ := industryScore_mem today candidate.stints role.industries
      obtain ⟨hn0, hn1⟩ := tenureScores_third_mem today candidate.stints
        (role.minAvgMonths.getD 18) (role.minLastMonths.getD 12) hmA hmL
      obtain ⟨hr0, hr1⟩ := recencyScore_mem today candidate.stints 36
      have hsmem := skillSemSim_ok_mem sqrt role.jdSkillsBlob
        ((candidate.skillsBlob ++ "\n" ++ candidate.relevantBulletsBlob).trim) embedFn
        sscore hss
      obtain ⟨hp0, hp1⟩ := contextPenalty_ok_mem sqrt candidate.relevantBulletsBlob
        embedFn cpen hcp
      have hsk0 : 0 ≤ sscore := hsk
      have hcs0 : (0 : ℚ) ≤ max 0 (1 - cpen) := le_max_left _ _
      have hcs1 : max 0 (1 - cpen) ≤ 1 := max_le (by norm_num) (by linarith)
      have hbpair : 0 ≤ (if candidate.bonusFlags = [] then (0 : ℚ)
            else min 0.1 candidate.bonusFlags.sum)
          ∧ (if candidate.bonusFlags = [] then (0 : ℚ)
            else min 0.1 candidate.bonusFlags.sum) ≤ 1 := by
        split_ifs with hbe
        · norm_num
        · have hsumb : 0 ≤ candidate.bonusFlags.sum := List.sum_nonneg hbf
          exact ⟨le_min (by norm_num) hsumb, le_trans (min_le_left _ _) (by norm_num)⟩
      obtain ⟨hb0, hb1⟩ := hbpair
      set ts := titleMatchScore candidate.titlesNorm role.titles role.level
      set is2 := industryScore today candidate.stints role.industries
      set ten := (tenureScores today candidate.stints (role.minAvgMonths.getD 18)
        (role.minLastMonths.getD 12)).2.2
      set rs := recencyScore today candidate.stints 36
      set cs := max 0 (1 - cpen)
      set bs := (if candidate.bonusFlags = [] then (0 : ℚ)
        else min 0.1 candidate.bonusFlags.sum)
      have p1a : 0 ≤ W.title * ts := mul_nonneg hWt ht0
      have p1b : W.title * ts ≤ W.title := mul_le_of_le_one_right hWt ht1
      have p2a : 0 ≤ W.industry * is2 := mul_nonneg hWi hi0
      have p2b : W.industry * is2 ≤ W.industry := mul_le_of_le_one_right hWi hi1
      have p3a : 0 ≤ W.skills * sscore := mul_nonneg hWs hsk0
      have p3b : W.skills * sscore ≤ W.skills := mul_le_of_le_one_right hWs hsmem.2
      have p4a : 0 ≤ W.context * cs := mul_nonneg hWc hcs0
      have p4b : W.context * cs ≤ W.context := mul_le_of_le_one_right hWc hcs1
      have p5a : 0 ≤ W.tenure * ten := mul_nonneg hWte hn0
      have p5b : W.tenure * ten ≤ W.tenure := mul_le_of_le_one_right hWte hn1
      have p6a : 0 ≤ W.recency * rs := mul_nonneg hWr hr0
      have p6b : W.recency * rs ≤ W.recency := mul_le_of_le_one_right hWr hr1
      have p7a : 0 ≤ W.bonus * bs := mul_nonneg hWb hb0
      have p7b : W.bonus * bs ≤ W.bonus := mul_le_of_le_one_right hWb hb1
      exact pyRound1_mem (100 * (W.title * ts + W.industry * is2 + W.skills * sscore +
        W.context * cs + W.tenure * ten + W.recency * rs + W.bonus * bs))
        (by linarith) (by linarith)

/-- C1 counterexample: with the default weight values (which sum to 1), a
candidate whose skills embedding is antipodal to the role skills embedding
gets a skills cosine of -1 and a fit of -20, outside [0, 100]. -/
theorem compute_fit_range_cex :
    (0.2 + 0.15 + 0.3 + 0.1 + 0.1 + 0.1 + 0.05 : ℚ) = 1
  ∧ computeFit (fun q => q) ⟨2026, 10, 12⟩ (fun s => if s = "jd skills" then [1] else [-1])
      ⟨[], [], "cand skills", "", []⟩ ⟨[], none, [], "jd skills", none, none, none⟩
      (some ⟨0.2, 0.15, 0.3, 0.1, 0.1, 0.1, 0.05⟩)
    = Except.ok ⟨-20, ⟨0, 0, -1, 1, 0, 0, 0⟩⟩
  ∧ ¬ (0 ≤ (-20 : ℚ)) := by
  refine ⟨by norm_num, by with_unfolding_all decide, by norm_num⟩

/-- Witness for the fit specification: an empty candidate against an empty role
under the default weights scores exactly 10 (the context weight), inside
[0, 100]. -/
theorem compute_fit_spec_witness :
    computeFit (fun q => q) ⟨2026, 10, 12⟩ (fun _ => [1])
      ⟨[], [], "", "", []⟩ ⟨[], none, [], "", none, none, none⟩ (some DEFAULT_WEIGHTS)
      = Except.ok ⟨10, ⟨0, 0, 0, 1, 0, 0, 0⟩⟩
  ∧ (0 ≤ (10 : ℚ) ∧ (10 : ℚ) ≤ 100) := by
  have hok : computeFit (fun q => q) ⟨2026, 10, 12⟩ (fun _ => [1])
      ⟨[], [], "", "", []⟩ ⟨[], none, [], "", none, none, none⟩ (some DEFAULT_WEIGHTS)
      = Except.ok ⟨10, ⟨0, 0, 0, 1, 0, 0, 0⟩⟩ := by with_unfolding_all decide
  have h := ((compute_fit_spec (fun q => q) ⟨2026, 10, 12⟩ (fun _ => [1])
    ⟨[], [], "", "", []⟩ ⟨[], none, [], "", none, none, none⟩).2.2 DEFAULT_WEIGHTS
    ⟨10, ⟨0, 0, 0, 1, 0, 0, 0⟩⟩ hok).2
    (by norm_num [DEFAULT_WEIGHTS]) (by norm_num [DEFAULT_WEIGHTS])
    (by norm_num [DEFAULT_WEIGHTS]) (by norm_num [DEFAULT_WEIGHTS])
    (by norm_num [DEFAULT_WEIGHTS]) (by norm_num [DEFAULT_WEIGHTS])
    (by norm_num [DEFAULT_WEIGHTS]) (by norm_num [DEFAULT_WEIGHTS])
    (by norm_num) (by norm_num) (by norm_num)
    (by intro x hx; exact absurd hx (List.not_mem_nil x))
  exact ⟨hok, h⟩
